import Mathlib

/-!
Verification development for the sane-rss ingestion-dedup-retention pipeline.

The Rust sources are shallowly embedded as executable Lean definitions:

* `Item` models `rss::Item` restricted to the fields the pipeline reads
  (guid, link, title, pubDate, description, content), each an `Option String`
  exactly as in the `rss` crate accessors.
* `HashMap<String, _>` values are modelled as association lists with
  `lookupA` / `updateA`; `HashSet<String>` is modelled as a duplicate-free
  `List String` with `insertSet` (append if absent), which preserves both the
  membership and the cardinality of the Rust set.
* Fallible or panicking code paths return `Option` (`none` = panic /
  `unreachable!`).
* The wall clock used by `feed.rs::item_to_guid`'s synthetic fallback is an
  explicit `now : Int` parameter (`chrono::Utc::now().timestamp()`).
-/

namespace SaneRss

/-- An RSS item, restricted to the fields read by the pipeline. -/
structure Item where
  guid : Option String
  link : Option String
  title : Option String
  pubDate : Option String
  description : Option String
  content : Option String
deriving DecidableEq

/-- Embeds `src/feed.rs::item_to_guid`: priority chain guid, link,
title + pub date, and a synthetic fallback derived from the current time. -/
def item_to_guid (now : Int) (item : Item) : String :=
  match item.guid with
  | some g => g
  | none =>
    match item.link with
    | some l => l
    | none =>
      match item.title with
      | some t => t ++ "-" ++ item.pubDate.getD "no-date"
      | none => "unknown-" ++ toString now

/-- Embeds `src/storage.rs::FeedStorageInner::item_to_guid`: same priority
chain, but the final branch is `unreachable!()`, modelled as `none`. -/
def storage_item_to_guid (item : Item) : Option String :=
  match item.guid with
  | some g => some g
  | none =>
    match item.link with
    | some l => some l
    | none =>
      match item.title with
      | some t => some (t ++ "-" ++ item.pubDate.getD "no-date")
      | none => none

/-- Embeds `src/storage.rs::StoredFeed`; `items` is oldest-first
(`VecDeque` front = oldest). -/
structure StoredFeed where
  title : String
  description : String
  items : List Item
deriving DecidableEq

/-- Association-list lookup, modelling `HashMap::get`. -/
def lookupA {α : Type} : List (String × α) → String → Option α
  | [], _ => none
  | (k, v) :: rest, key => if key = k then some v else lookupA rest key

/-- Association-list update of an existing key (appends when absent),
modelling `HashMap::insert` / `entry().or_default()` updates. -/
def updateA {α : Type} : List (String × α) → String → α → List (String × α)
  | [], key, v => [(key, v)]
  | (k, v') :: rest, key, v =>
    if key = k then (k, v) :: rest else (k, v') :: updateA rest key v

/-- Set insertion on a duplicate-free list, modelling `HashSet::insert`;
the `Bool` is `true` iff the element was newly inserted. -/
def insertSet (s : List String) (g : String) : List String × Bool :=
  if g ∈ s then (s, false) else (s ++ [g], true)

/-- Embeds `src/storage.rs::FeedStorageInner`: the served feeds, the per-feed
item cap, and the per-feed set of already-seen identifiers
(`known_items`, a `HashSet` — explicitly not limited by `max_items`). -/
structure FeedStorageInner where
  feeds : List (String × StoredFeed)
  maxItems : Nat
  knownItems : List (String × List String)
deriving DecidableEq

/-- The `while feed.items.len() > self.max_items { feed.items.pop_front() }`
loop of `store_filtered_item`, popping from the oldest end. -/
def trimToMax (maxItems : Nat) : List Item → List Item
  | [] => []
  | x :: xs => if (x :: xs).length > maxItems then trimToMax maxItems xs else x :: xs

/-- Embeds `src/storage.rs::FeedStorageInner::store_filtered_item`:
push to the newest end, then evict from the oldest end while over capacity.
The `.expect("Tried to record an item in an unknown feed")` panic on a
missing feed is modelled as `none`. -/
def store_filtered_item (st : FeedStorageInner) (feedName : String) (item : Item) :
    Option FeedStorageInner :=
  match lookupA st.feeds feedName with
  | none => none
  | some feed =>
    some { st with
            feeds := updateA st.feeds feedName
              { feed with items := trimToMax st.maxItems (feed.items ++ [item]) } }

/-- Embeds `src/storage.rs::FeedStorageInner::add_channel`: insert an empty
stored feed only when the name is not already present. -/
def add_channel (st : FeedStorageInner) (feedName title description : String) :
    FeedStorageInner :=
  if (lookupA st.feeds feedName).isSome then st
  else { st with feeds := st.feeds ++ [(feedName, ⟨title, description, []⟩)] }

/-- The known-identifier set of a feed (`entry().or_default()` view). -/
def knownOf (st : FeedStorageInner) (feedName : String) : List String :=
  (lookupA st.knownItems feedName).getD []

/-- Embeds the guid-level core of
`src/storage.rs::FeedStorageInner::record_as_known`:
`self.known_items.entry(feed_name).or_default().insert(item_guid)`.
Returns `false` as second component when the identifier already existed. -/
def record_as_known_guid (st : FeedStorageInner) (feedName guid : String) :
    FeedStorageInner × Bool :=
  let s := knownOf st feedName
  let r := insertSet s guid
  ({ st with knownItems := updateA st.knownItems feedName r.1 }, r.2)

/-- Embeds `src/storage.rs::FeedStorageInner::record_as_known` (item level):
the guid computation can hit `unreachable!()`, modelled as `none`. -/
def record_as_known (st : FeedStorageInner) (feedName : String) (item : Item) :
    Option (FeedStorageInner × Bool) :=
  (storage_item_to_guid item).map (record_as_known_guid st feedName)

/-- Embeds `src/storage.rs::FeedStorageInner::is_known` at guid level:
membership of the guid in the feed's known set, `false` when the feed has
no entry. -/
def is_known_guid (st : FeedStorageInner) (feedName guid : String) : Bool :=
  match lookupA st.knownItems feedName with
  | some s => s.contains guid
  | none => false

/-- Modelled from the spec: `FeedStorage::is_new_item` is called by
`src/poller.rs::poll_all_feeds` but its definition is not among the sources
(only a commented-out copy in storage.rs). Per §4.2 `is_known` it is the
side-effect-free negation of known-membership for the feed's identifier
sequence. -/
def is_new_item (st : FeedStorageInner) (feedName guid : String) : Bool :=
  !(is_known_guid st feedName guid)

/-- Modelled from the spec: `FeedStorage::store_items` is invoked by
`src/poller.rs` (`poll_all_feeds`, `initial_fetch`) but its definition is not
among the sources; per §4.2–§4.3 and §4.6 of the spec (and the commented-out
`add_items` in storage.rs) it: optionally ensures the feed exists with the
given metadata, skips already-known items, appends the remaining ones at the
newest end of the feed one at a time evicting from the oldest end beyond
capacity (the append is skipped with a warning when the feed does not exist),
and records every appended item's identity as known. -/
def store_items (now : Int) (st : FeedStorageInner) (feedName : String)
    (items : List Item) (title description : Option String) : FeedStorageInner :=
  let st :=
    match title, description with
    | some t, some d => add_channel st feedName t d
    | _, _ => st
  let newItems := items.filter (fun it => is_new_item st feedName (item_to_guid now it))
  if newItems.isEmpty then st
  else
    let st1 :=
      match lookupA st.feeds feedName with
      | some feed =>
        { st with
            feeds := updateA st.feeds feedName
              { feed with
                  items := newItems.foldl
                    (fun acc it => trimToMax st.maxItems (acc ++ [it])) feed.items } }
      | none => st
    newItems.foldl
      (fun s it => (record_as_known_guid s feedName (item_to_guid now it)).1) st1

/-- The poller's observable state: the shared storage plus an instrumentation
log of the identifiers for which the decision gate (`should_accept_item`) was
invoked, in invocation order. -/
structure PollState where
  storage : FeedStorageInner
  gateCalls : List String
deriving DecidableEq

/-- One iteration of the per-item loop of
`src/poller.rs::FeedPoller::poll_all_feeds`: compute the identity; when the
item is new, ask the decision gate (recorded in `gateCalls`) and, only on
accept, store the item via `store_items` with no metadata. -/
def poll_item (decide : Item → Bool) (now : Int) (feedName : String)
    (st : PollState) (item : Item) : PollState :=
  let guid := item_to_guid now item
  if is_new_item st.storage feedName guid then
    let st1 : PollState := { st with gateCalls := st.gateCalls ++ [guid] }
    if decide item then
      { st1 with storage := store_items now st1.storage feedName [item] none none }
    else st1
  else st

/-- Embeds `src/poller.rs::FeedPoller::poll_all_feeds`: for each configured
feed, fetch (`fetch name = none` models any fetch failure, which is logged and
skipped) and run the per-item loop on the returned items in order. -/
def poll_all_feeds (fetch : String → Option (List Item)) (decide : Item → Bool)
    (now : Int) (feedNames : List String) (st : PollState) : PollState :=
  feedNames.foldl
    (fun st name =>
      match fetch name with
      | some items => items.foldl (poll_item decide now name) st
      | none => st) st

/-- Embeds `src/config.rs::Filters`: optional accept/reject topic lists. -/
structure Filters where
  accept : Option (List String)
  reject : Option (List String)
deriving DecidableEq

/-- Embeds the `FilterResponse` JSON payload of `src/llm.rs`. -/
structure FilterResponse where
  accept : Bool
  reject : Bool
deriving DecidableEq

/-- The topic-collection prologue of `src/llm.rs::should_accept_item`:
global accept/reject topics first, then the feed-local ones. -/
def collectTopics (globalFilters localFilters : Option Filters) :
    List String × List String :=
  let acceptTopics :=
    (globalFilters.bind (·.accept)).getD [] ++ (localFilters.bind (·.accept)).getD []
  let rejectTopics :=
    (globalFilters.bind (·.reject)).getD [] ++ (localFilters.bind (·.reject)).getD []
  (acceptTopics, rejectTopics)

/-- Embeds `src/llm.rs::LlmFilter::should_accept_item`. The Anthropic call is
abstracted as `callLlm : String → Except String FilterResponse` (prompt in,
parsed response or error out) and the scraper-based content extraction as
`excerpt : Item → String`; the second component counts how many times the
remote decision mechanism was invoked. -/
def should_accept_item (callLlm : String → Except String FilterResponse)
    (promptTemplate : String) (excerpt : Item → String) (item : Item)
    (globalFilters localFilters : Option Filters) : Bool × Nat :=
  let title := item.title.getD "No title"
  let description := item.description.getD "No description"
  let contentExcerpt := excerpt item
  let topics := collectTopics globalFilters localFilters
  if topics.1.isEmpty && topics.2.isEmpty then (true, 0)
  else
    let prompt :=
      ((((promptTemplate.replace "{title}" title).replace
            "{description}" description).replace
          "{content_excerpt}" contentExcerpt).replace
        "{accept_topics}" (String.intercalate "; " topics.1)).replace
        "{reject_topics}" (String.intercalate "; " topics.2)
    match callLlm prompt with
    | Except.ok response => (response.accept || !response.reject, 1)
    | Except.error _ => (true, 1)

/-- The accumulation loop of `src/llm.rs::LlmFilter::extract_content_text`
(identical in `src/filter.rs::extract_content_text`), over the trimmed text of
each selected `<p>` element; strings are modelled as `List Char` at one byte
per element, matching Rust's byte-based `len()` and slicing on this ASCII
fragment. -/
def extractLoop (maxChars : Nat) (acc : List Char) : List (List Char) → List Char
  | [] => acc
  | t :: rest =>
    if t.isEmpty then extractLoop maxChars acc rest
    else
      let remaining := maxChars - acc.length
      if remaining = 0 then acc
      else if acc.length + t.length ≤ maxChars then
        extractLoop maxChars ((if acc.isEmpty then acc else acc ++ [' ']) ++ t) rest
      else
        (if acc.isEmpty then acc else acc ++ [' ']) ++ t.take (min remaining t.length)

/-- Embeds `src/llm.rs::LlmFilter::extract_content_text`: `none` content (or
empty) yields the empty string, otherwise the `extractLoop` accumulation over
the paragraph texts with `max_chars = 1000`. The HTML parsing
(`scraper::Html` / selector `"p"`) is abstracted: the argument is already the
list of per-paragraph trimmed texts. -/
def extract_content_text (paragraphs : Option (List (List Char))) : List Char :=
  match paragraphs with
  | none => []
  | some ps => extractLoop 1000 [] ps

/-! Concrete fixtures used by the scenario evaluations and witnesses. -/

/-- Scenario item `i1` (identified by an explicit guid). -/
def i1 : Item := ⟨some "i1", none, none, none, none, none⟩

/-- Scenario item `i2`. -/
def i2 : Item := ⟨some "i2", none, none, none, none, none⟩

/-- Scenario item `i3`. -/
def i3 : Item := ⟨some "i3", none, none, none, none, none⟩

/-- Scenario item `i4`. -/
def i4 : Item := ⟨some "i4", none, none, none, none, none⟩

/-- A decision gate that accepts every item except `i2` (the §8 scenario's
gate: accepts `i1`, `i3`, `i4`, rejects `i2`). -/
def techGate : Item → Bool := fun it => !(it.guid == some "i2")

/-- Initial state for the §8 scenario: feed `tech` present and empty,
capacity 2, nothing known, no gate calls. -/
def techSt0 : PollState := ⟨⟨[("tech", ⟨"Tech", "News", []⟩)], 2, []⟩, []⟩

/-- Cycle-1 fetch result of the §8 scenario: `[i1, i2, i3]`. -/
def techFetch1 : String → Option (List Item) := fun _ => some [i1, i2, i3]

/-- Cycle-2 fetch result of the §8 scenario: `[i2, i4]`. -/
def techFetch2 : String → Option (List Item) := fun _ => some [i2, i4]

/-- A decision gate that rejects everything. -/
def rejectGate : Item → Bool := fun _ => false

/-- A fetch stub returning the single item `i1` for every feed. -/
def fetchOne : String → Option (List Item) := fun _ => some [i1]

/-- A single-feed initial state (feed `f`, capacity 2, nothing known). -/
def pollStA : PollState := ⟨⟨[("f", ⟨"t", "d", []⟩)], 2, []⟩, []⟩

/-- An item with no guid, no link and no title (valid RSS: description
only) — the input on which the two identity functions diverge. -/
def itemNoId : Item := ⟨none, none, none, none, some "only a description", none⟩

/-- The item list currently stored for a feed (empty when the feed is
absent). -/
def feedItemsOf (st : FeedStorageInner) (feedName : String) : List Item :=
  ((lookupA st.feeds feedName).map (·.items)).getD []

/-- Iterated `store_filtered_item`: the poller appends accepted items one at
a time; `none` as soon as one append hits the missing-feed panic. -/
def appendItems (feedName : String) : FeedStorageInner → List Item → Option FeedStorageInner
  | st, [] => some st
  | st, it :: rest =>
    match store_filtered_item st feedName it with
    | none => none
    | some st1 => appendItems feedName st1 rest

/-- Iterated `HashSet::insert` (`insertSet`) at the list level. -/
def addAll (s : List String) (gs : List String) : List String :=
  gs.foldl (fun acc g => (insertSet acc g).1) s

/-- Iterated `record_as_known` (guid level) over a sequence of identities. -/
def recordAllGuids (feedName : String) (st : FeedStorageInner)
    (gs : List String) : FeedStorageInner :=
  gs.foldl (fun s g => (record_as_known_guid s feedName g).1) st

/-- A storage with no feeds and nothing known, capacity `M`. -/
def emptyStorage (M : Nat) : FeedStorageInner := ⟨[], M, []⟩

/-- C1: evaluating `poll_all_feeds` on a feed whose single fetched item is
new and rejected by the decision gate shows that the rejected item's identity
is NOT recorded in the known-item cache (it is still `is_new_item` after the
cycle) and that the next cycle re-evaluates it (the gate is invoked for guid
`i1` once per cycle). This contradicts the claim that every new candidate is
recorded regardless of the decision outcome: the code only records (via
`store_items`) in the accept branch. -/
theorem c1_rejected_item_not_recorded :
    (is_new_item (poll_all_feeds fetchOne rejectGate 0 ["f"] pollStA).storage
        "f" "i1" = true)
    ∧ (poll_all_feeds fetchOne rejectGate 0 ["f"]
        (poll_all_feeds fetchOne rejectGate 0 ["f"] pollStA)).gateCalls
      = ["i1", "i1"] := by
  decide

/-- C6: evaluating the two identity functions at an item having no guid, no
link and no title: the storage.rs copy hits `unreachable!()` (modelled
`none`), i.e. it is not total, while the feed.rs copy returns the synthetic
time-derived fallback the claim describes. -/
theorem c6_identity_divergence_eval :
    storage_item_to_guid itemNoId = none
    ∧ (∀ now : Int, item_to_guid now itemNoId = "unknown-" ++ toString now) :=
  ⟨rfl, fun _ => rfl⟩

/-- C7: evaluating the §8 scenario (feed `tech`, capacity 2; cycle 1 fetches
`[i1, i2, i3]`, gate accepts `i1`, `i3` and rejects `i2`; cycle 2 fetches
`[i2, i4]`). After cycle 1 the stored feed is `[i1, i3]` as claimed, but the
known-item cache holds only `i1` and `i3` — `i2` was never recorded — and in
cycle 2 the gate is invoked for `i2` again (gate log
`["i1","i2","i3","i2","i4"]`), contradicting the claimed skip-without
re-deciding; the final stored feed is `[i3, i4]` as claimed. -/
theorem c7_scenario_eval :
    feedItemsOf (poll_all_feeds techFetch1 techGate 0 ["tech"] techSt0).storage
        "tech" = [i1, i3]
    ∧ knownOf (poll_all_feeds techFetch1 techGate 0 ["tech"] techSt0).storage
        "tech" = ["i1", "i3"]
    ∧ (poll_all_feeds techFetch1 techGate 0 ["tech"] techSt0).gateCalls
        = ["i1", "i2", "i3"]
    ∧ feedItemsOf (poll_all_feeds techFetch2 techGate 0 ["tech"]
        (poll_all_feeds techFetch1 techGate 0 ["tech"] techSt0)).storage
        "tech" = [i3, i4]
    ∧ (poll_all_feeds techFetch2 techGate 0 ["tech"]
        (poll_all_feeds techFetch1 techGate 0 ["tech"] techSt0)).gateCalls
        = ["i1", "i2", "i3", "i2", "i4"] := by
  decide

/-- The eviction loop keeps exactly the suffix of length at most `M`. -/
theorem trimToMax_eq_drop (M : Nat) (l : List Item) :
    trimToMax M l = l.drop (l.length - M) := by
  induction l with
  | nil => simp [trimToMax]
  | cons x xs ih =>
    rw [trimToMax]
    by_cases h : (x :: xs).length > M
    · rw [if_pos h, ih]
      have h2 : (x :: xs).length - M = (xs.length - M) + 1 := by
        simp only [List.length_cons] at h ⊢; omega
      rw [h2, List.drop_succ_cons]
    · rw [if_neg h]
      have h2 : (x :: xs).length - M = 0 := by
        simp only [List.length_cons, gt_iff_lt, not_lt] at h ⊢; omega
      rw [h2, List.drop_zero]

/-- After the eviction loop the length never exceeds the capacity. -/
theorem trimToMax_length_le (M : Nat) (l : List Item) :
    (trimToMax M l).length ≤ M := by
  rw [trimToMax_eq_drop, List.length_drop]; omega

/-- Keeping the most recent `M` of a list absorbs an earlier keep-last-`M`. -/
theorem drop_last_absorb (M : Nat) (l r : List Item) :
    (l.drop (l.length - M) ++ r).drop ((l.drop (l.length - M) ++ r).length - M)
      = (l ++ r).drop ((l ++ r).length - M) := by
  rcases le_or_lt l.length M with h | h
  · have h0 : l.length - M = 0 := by omega
    rw [h0, List.drop_zero]
  · rw [List.drop_append_eq_append_drop, List.drop_append_eq_append_drop,
      List.drop_drop]
    congr 1
    · congr 1
      simp only [List.length_append, List.length_drop]
      omega
    · congr 1
      simp only [List.length_append, List.length_drop]
      omega

/-- One-at-a-time appends with eviction keep exactly the most recent `M`
items, provided the starting list already satisfies the capacity bound. -/
theorem foldl_trim_eq_drop (M : Nat) (items : List Item) :
    ∀ l : List Item, l.length ≤ M →
      items.foldl (fun acc it => trimToMax M (acc ++ [it])) l
        = (l ++ items).drop ((l ++ items).length - M) := by
  induction items with
  | nil =>
    intro l hl
    have h0 : l.length - M = 0 := by omega
    simp [h0]
  | cons x xs ih =>
    intro l hl
    rw [List.foldl_cons, trimToMax_eq_drop]
    have h1 : ((l ++ [x]).drop ((l ++ [x]).length - M)).length ≤ M := by
      rw [List.length_drop]; omega
    rw [ih _ h1]
    have h2 := drop_last_absorb M (l ++ [x]) xs
    simpa using h2

/-- Appending via `store_filtered_item` on a single-feed storage succeeds and
folds the eviction-on-append step over the items. -/
theorem appendItems_single (M : Nat) (kn : List (String × List String))
    (t d : String) (items : List Item) :
    ∀ acc : List Item,
      appendItems "f" ⟨[("f", ⟨t, d, acc⟩)], M, kn⟩ items
        = some ⟨[("f", ⟨t, d,
            items.foldl (fun a it => trimToMax M (a ++ [it])) acc⟩)], M, kn⟩ := by
  induction items with
  | nil => intro acc; rfl
  | cons x xs ih =>
    intro acc
    simp only [appendItems, store_filtered_item, lookupA, updateA, if_pos rfl,
      List.foldl_cons]
    exact ih _

/-- C4: appending `M + k` items (`k ≥ 1`) one at a time to an empty feed of
capacity `M` leaves exactly the most recent `M` items in order (the first `k`
are evicted); the same holds for a bulk append followed by the eviction loop;
and a single append never leaves more than `M` items. -/
theorem c4_bounded_retention (M k : Nat) (t d : String) (items : List Item)
    (hk : 1 ≤ k) (hlen : items.length = M + k) :
    appendItems "f" ⟨[("f", ⟨t, d, []⟩)], M, []⟩ items
        = some ⟨[("f", ⟨t, d, items.drop k⟩)], M, []⟩
    ∧ (items.drop k).length = M
    ∧ trimToMax M items = items.drop k
    ∧ (∀ (l : List Item) (x : Item), (trimToMax M (l ++ [x])).length ≤ M) := by
  have hd : items.length - M = k := by omega
  refine ⟨?_, ?_, ?_, fun l x => trimToMax_length_le M _⟩
  · rw [appendItems_single]
    have h1 := foldl_trim_eq_drop M items [] (by simp)
    simp only [List.nil_append] at h1
    rw [h1, hd]
  · rw [List.length_drop]; omega
  · rw [trimToMax_eq_drop, hd]

/-- C4 witness: capacity 2, three items appended, the oldest is evicted. -/
theorem c4_bounded_retention_witness :
    ((1 : Nat) ≤ 1 ∧ ([i1, i2, i3] : List Item).length = 2 + 1)
    ∧ ([i1, i2, i3] : List Item).drop 1 = [i2, i3]
    ∧ (([i1, i2, i3] : List Item).drop 1).length = 2 :=
  ⟨⟨le_refl 1, rfl⟩, rfl,
    (c4_bounded_retention 2 1 "t" "d" [i1, i2, i3] (le_refl 1) rfl).2.1⟩

/-- Updating a key makes it look up to the new value. -/
theorem lookupA_updateA_self {α : Type} (m : List (String × α)) (k : String) (v : α) :
    lookupA (updateA m k v) k = some v := by
  induction m with
  | nil => simp [lookupA, updateA]
  | cons p rest ih =>
    obtain ⟨k', v'⟩ := p
    by_cases h : k = k'
    · subst h; simp [lookupA, updateA]
    · simp [lookupA, updateA, h, ih]

/-- Recording a guid updates the feed's known set by a set insertion. -/
theorem knownOf_record (st : FeedStorageInner) (f g : String) :
    knownOf (record_as_known_guid st f g).1 f = (insertSet (knownOf st f) g).1 := by
  simp [knownOf, record_as_known_guid, lookupA_updateA_self]

/-- Unfolding step for `addAll`. -/
theorem addAll_cons (s : List String) (x : String) (rest : List String) :
    addAll s (x :: rest) = addAll (insertSet s x).1 rest := rfl

/-- Recording a guid sequence acts on the feed's known set as `addAll`. -/
theorem knownOf_recordAll (f : String) (gs : List String) :
    ∀ st : FeedStorageInner,
      knownOf (recordAllGuids f st gs) f = addAll (knownOf st f) gs := by
  induction gs with
  | nil => intro st; rfl
  | cons g rest ih =>
    intro st
    show knownOf (recordAllGuids f (record_as_known_guid st f g).1 rest) f = _
    rw [ih, addAll_cons, knownOf_record]

/-- Set insertion preserves freedom from duplicates. -/
theorem insertSet_nodup (s : List String) (g : String) (hs : s.Nodup) :
    (insertSet s g).1.Nodup := by
  by_cases h : g ∈ s
  · simpa [insertSet, h]
  · simp only [insertSet, h, if_neg, ite_false]
    simp [List.nodup_append, hs, h]

/-- Iterated set insertion preserves freedom from duplicates. -/
theorem addAll_nodup (gs : List String) :
    ∀ s : List String, s.Nodup → (addAll s gs).Nodup := by
  induction gs with
  | nil => intro s hs; exact hs
  | cons g rest ih =>
    intro s hs
    rw [addAll_cons]
    exact ih _ (insertSet_nodup s g hs)

/-- Membership after iterated set insertion: exactly the old members and the
inserted ones — nothing is ever evicted. -/
theorem addAll_mem (gs : List String) :
    ∀ (s : List String) (g : String), g ∈ addAll s gs ↔ g ∈ s ∨ g ∈ gs := by
  induction gs with
  | nil => intro s g; simp [addAll]
  | cons x rest ih =>
    intro s g
    rw [addAll_cons, ih]
    by_cases h : x ∈ s
    · simp only [insertSet, h, ite_true, List.mem_cons]
      constructor
      · rintro (hg | hg)
        · exact Or.inl hg
        · exact Or.inr (Or.inr hg)
      · rintro (hg | rfl | hg)
        · exact Or.inl hg
        · exact Or.inl h
        · exact Or.inr hg
    · simp only [insertSet, h, ite_false, List.mem_append, List.mem_singleton,
        List.mem_cons]
      tauto

/-- Inserting distinct fresh identifiers grows the set by their number. -/
theorem addAll_length (gs : List String) :
    ∀ s : List String, gs.Nodup → (∀ x ∈ gs, x ∉ s) →
      (addAll s gs).length = s.length + gs.length := by
  induction gs with
  | nil => intro s _ _; simp [addAll]
  | cons x rest ih =>
    intro s hnd hdisj
    rw [addAll_cons]
    have hx : x ∉ s := hdisj x (by simp)
    have hins : (insertSet s x).1 = s ++ [x] := by simp [insertSet, hx]
    rw [hins, ih (s ++ [x]) (List.Nodup.of_cons hnd)]
    · simp only [List.length_append, List.length_singleton, List.length_cons,
        List.length_nil]
      omega
    · intro y hy
      simp only [List.mem_append, List.mem_singleton]
      push_neg
      refine ⟨hdisj y (by simp [hy]), ?_⟩
      rintro rfl
      exact (List.nodup_cons.mp hnd).1 hy

/-- C3 (amended): the Known-Item Cache entry of a feed is an unbounded set:
`record_as_known` inserts the identity if absent and never evicts, so after
any sequence of record operations the entry holds exactly the distinct
identities recorded, without duplicates. -/
theorem c3_known_cache_is_set (M : Nat) (f g : String) (gs : List String) :
    (knownOf (recordAllGuids f (emptyStorage M) gs) f).Nodup
    ∧ (g ∈ knownOf (recordAllGuids f (emptyStorage M) gs) f ↔ g ∈ gs) := by
  have h0 : knownOf (emptyStorage M) f = [] := rfl
  constructor
  · rw [knownOf_recordAll, h0]
    exact addAll_nodup gs [] (by simp)
  · rw [knownOf_recordAll, h0, addAll_mem]
    simp

/-- C3 counterexample: no fixed capacity `K` bounds the Known-Item Cache
entry — for every candidate bound, recording `K + 1` distinct identities
exceeds it, so the claimed capacity/FIFO-eviction invariant is false of the
code (`known_items` is an unbounded `HashSet`; nothing is ever evicted). -/
theorem c3_no_fixed_capacity :
    ¬ ∃ K : Nat, ∀ gs : List String,
        (knownOf (recordAllGuids "f" (emptyStorage 2) gs) "f").length ≤ K := by
  rintro ⟨K, hK⟩
  have hinj : Function.Injective (fun n : Nat => String.mk (List.replicate n 'a')) := by
    intro a b hab
    have h2 : List.replicate a 'a' = List.replicate b 'a' := by
      injection hab
    have h3 := congrArg List.length h2
    simpa using h3
  have hnd : ((List.range (K + 1)).map
      (fun n : Nat => String.mk (List.replicate n 'a'))).Nodup :=
    (List.nodup_range (K + 1)).map hinj
  have hlen := addAll_length
    ((List.range (K + 1)).map (fun n : Nat => String.mk (List.replicate n 'a')))
    [] hnd (by simp)
  have hbound := hK ((List.range (K + 1)).map
    (fun n : Nat => String.mk (List.replicate n 'a')))
  rw [knownOf_recordAll] at hbound
  have h0 : knownOf (emptyStorage 2) "f" = [] := rfl
  rw [h0, hlen] at hbound
  simp only [List.length_nil, List.length_map, List.length_range] at hbound
  omega

/-- The optional separator costs at most one byte. -/
theorem sep_length_le (acc : List Char) :
    (if acc.isEmpty then acc else acc ++ [' ']).length ≤ acc.length + 1 := by
  by_cases h : acc.isEmpty
  · simp [h]
  · simp only [Bool.not_eq_true] at h
    simp [h]

/-- The accumulation loop can exceed `maxChars` by at most one byte (the
space separator pushed before the length-checked text). -/
theorem extractLoop_length_le (mc : Nat) (ps : List (List Char)) :
    ∀ acc : List Char, acc.length ≤ mc + 1 →
      (extractLoop mc acc ps).length ≤ mc + 1 := by
  induction ps with
  | nil => intro acc hacc; simpa [extractLoop]
  | cons t rest ih =>
    intro acc hacc
    rw [extractLoop]
    by_cases hemp : t.isEmpty
    · rw [if_pos hemp]; exact ih acc hacc
    · rw [if_neg hemp]
      by_cases hrem : mc - acc.length = 0
      · simp only [hrem, ite_true]
        exact hacc
      · simp only [hrem, ite_false]
        have hsep := sep_length_le acc
        by_cases hfit : acc.length + t.length ≤ mc
        · rw [if_pos hfit]
          apply ih
          simp only [List.length_append]
          omega
        · rw [if_neg hfit]
          simp only [List.length_append, List.length_take]
          omega

/-- C10 (amended): the extracted content excerpt is at most 1001 bytes —
the `max_chars = 1000` budget plus at most one separator byte, since the
length check `extracted.len() + text.len() <= max_chars` does not count the
space pushed between paragraphs. -/
theorem c10_excerpt_length_le_1001 (paragraphs : Option (List (List Char))) :
    (extract_content_text paragraphs).length ≤ 1001 := by
  cases paragraphs with
  | none => simp [extract_content_text]
  | some ps => exact extractLoop_length_le 1000 ps [] (by simp)

set_option maxRecDepth 100000 in
/-- C10 counterexample: two 500-byte paragraphs produce a 1001-byte excerpt
(500 + separator + 500), exceeding the claimed 1000-byte bound. -/
theorem c10_excerpt_can_exceed_1000 :
    ¬ ((extract_content_text
        (some [List.replicate 500 'a', List.replicate 500 'a'])).length ≤ 1000) := by
  decide

/-- C5: when the merged global and per-feed rule sets contribute no accept
topics and no reject topics, `should_accept_item` returns accept without
invoking the remote decision mechanism (call count 0). -/
theorem c5_fast_path_accept (callLlm : String → Except String FilterResponse)
    (promptTemplate : String) (excerpt : Item → String) (item : Item)
    (globalFilters localFilters : Option Filters)
    (h : collectTopics globalFilters localFilters = ([], [])) :
    should_accept_item callLlm promptTemplate excerpt item globalFilters localFilters
      = (true, 0) := by
  simp [should_accept_item, h]

/-- C5 witness: absent filter sets on both levels. -/
theorem c5_fast_path_accept_witness :
    collectTopics none none = ([], [])
    ∧ should_accept_item (fun _ => Except.error "down") "" (fun _ => "") i1 none none
      = (true, 0) :=
  ⟨rfl, c5_fast_path_accept _ "" (fun _ => "") i1 none none rfl⟩

/-- C2: with at least one accept or reject topic present, a failing decision
call makes `should_accept_item` return accept, and the poller then processes
storage state exactly as for an accepted item (`poll_item` coincides with an
always-accept gate on that item). -/
theorem c2_fail_open (callLlm : String → Except String FilterResponse) (e : String)
    (herr : ∀ p, callLlm p = Except.error e)
    (promptTemplate : String) (excerpt : Item → String) (item : Item)
    (globalFilters localFilters : Option Filters)
    (hne : (collectTopics globalFilters localFilters).1 ≠ []
         ∨ (collectTopics globalFilters localFilters).2 ≠ [])
    (now : Int) (feedName : String) (st : PollState) :
    (should_accept_item callLlm promptTemplate excerpt item
        globalFilters localFilters).1 = true
    ∧ poll_item (fun it =>
        (should_accept_item callLlm promptTemplate excerpt it
          globalFilters localFilters).1) now feedName st item
      = poll_item (fun _ => true) now feedName st item := by
  have h1 : ∀ it : Item,
      (should_accept_item callLlm promptTemplate excerpt it
        globalFilters localFilters).1 = true := by
    intro it
    have hcond : ((collectTopics globalFilters localFilters).1.isEmpty
        && (collectTopics globalFilters localFilters).2.isEmpty) = false := by
      rcases hne with h | h
      · simp [List.isEmpty_eq_false_iff_exists_mem, List.isEmpty_iff, h]
      · simp [List.isEmpty_iff, h]
    simp [should_accept_item, hcond, herr]
  refine ⟨h1 item, ?_⟩
  simp only [poll_item, h1 item]

/-- C2 witness: a reject-topic rule set and an always-failing call. -/
theorem c2_fail_open_witness :
    (should_accept_item (fun _ => Except.error "down") "" (fun _ => "") i1 none
        (some ⟨none, some ["politics"]⟩)).1 = true
    ∧ poll_item (fun it =>
        (should_accept_item (fun _ => Except.error "down") "" (fun _ => "") it none
          (some ⟨none, some ["politics"]⟩)).1) 0 "f" pollStA i1
      = poll_item (fun _ => true) 0 "f" pollStA i1 :=
  c2_fail_open (fun _ => Except.error "down") "down" (fun _ => rfl) "" (fun _ => "")
    i1 none (some ⟨none, some ["politics"]⟩) (Or.inr (by decide)) 0 "f" pollStA

/-- C8: a feed whose fetch fails contributes nothing and stops nothing — the
polling cycle over any feed sequence containing it equals the cycle over the
same sequence with that feed removed, so all remaining feeds are fetched and
processed exactly as they would have been. -/
theorem c8_fetch_failure_contained (fetch : String → Option (List Item))
    (gate : Item → Bool) (now : Int) (badFeed : String)
    (pre post : List String) (st : PollState)
    (hbad : fetch badFeed = none) :
    poll_all_feeds fetch gate now (pre ++ badFeed :: post) st
      = poll_all_feeds fetch gate now (pre ++ post) st := by
  simp only [poll_all_feeds, List.foldl_append, List.foldl_cons, hbad]

/-- C8 witness: three feeds, the middle fetch fails, the cycle is unchanged
by dropping it. -/
theorem c8_fetch_failure_contained_witness :
    ((fun n => if n = "bad" then none else some [i1]) : String → Option (List Item))
        "bad" = none
    ∧ poll_all_feeds (fun n => if n = "bad" then none else some [i1]) techGate 0
        (["good1"] ++ "bad" :: ["good2"]) pollStA
      = poll_all_feeds (fun n => if n = "bad" then none else some [i1]) techGate 0
        (["good1"] ++ ["good2"]) pollStA :=
  ⟨by decide,
    c8_fetch_failure_contained (fun n => if n = "bad" then none else some [i1])
      techGate 0 "bad" ["good1"] ["good2"] pollStA (by decide)⟩

/-- Appending a fresh key at the end leaves it findable. -/
theorem lookupA_append_self {α : Type} (l : List (String × α)) (n : String) (v : α)
    (h : lookupA l n = none) : lookupA (l ++ [(n, v)]) n = some v := by
  induction l with
  | nil => simp [lookupA]
  | cons p rest ih =>
    obtain ⟨k, w⟩ := p
    by_cases hk : n = k
    · subst hk; simp [lookupA] at h
    · simp only [List.cons_append, lookupA, if_neg hk] at h ⊢
      exact ih h

/-- Appending an entry for a different key does not change a lookup. -/
theorem lookupA_append_other {α : Type} (l : List (String × α)) (n m : String)
    (v : α) (h : m ≠ n) : lookupA (l ++ [(n, v)]) m = lookupA l m := by
  induction l with
  | nil => simp [lookupA, h]
  | cons p rest ih =>
    obtain ⟨k, w⟩ := p
    by_cases hk : m = k
    · subst hk; simp [lookupA]
    · simp only [List.cons_append, lookupA, if_neg hk]
      exact ih

/-- C9: `add_channel` creates an empty stored feed with the given metadata
when the name is absent (leaving every other feed's lookup unchanged), leaves
the entire store untouched when the name is present (first-write-wins), and
calling it twice with any second arguments equals calling it once. -/
theorem c9_add_channel_first_write_wins (st : FeedStorageInner)
    (n t d t' d' : String) :
    ((lookupA st.feeds n).isSome = false →
        lookupA (add_channel st n t d).feeds n = some ⟨t, d, []⟩
        ∧ ∀ m, m ≠ n → lookupA (add_channel st n t d).feeds m = lookupA st.feeds m)
    ∧ ((lookupA st.feeds n).isSome = true → add_channel st n t d = st)
    ∧ add_channel (add_channel st n t d) n t' d' = add_channel st n t d := by
  refine ⟨?_, ?_, ?_⟩
  · intro habs
    have hnone : lookupA st.feeds n = none := by
      cases hcase : lookupA st.feeds n
      · rfl
      · rw [hcase] at habs; simp at habs
    constructor
    · simp only [add_channel, hnone, Option.isSome_none, Bool.false_eq_true,
        if_false]
      exact lookupA_append_self _ _ _ hnone
    · intro m hm
      simp only [add_channel, hnone, Option.isSome_none, Bool.false_eq_true,
        if_false]
      exact lookupA_append_other _ _ _ _ hm
  · intro hsome
    simp [add_channel, hsome]
  · by_cases hsome : (lookupA st.feeds n).isSome
    · simp [add_channel, hsome]
    · have hnone : lookupA st.feeds n = none := by
        cases hcase : lookupA st.feeds n
        · rfl
        · rw [hcase] at hsome; simp at hsome
      have h2 : lookupA (add_channel st n t d).feeds n = some ⟨t, d, []⟩ := by
        simp only [add_channel, hnone, Option.isSome_none, Bool.false_eq_true,
          if_false]
        exact lookupA_append_self _ _ _ hnone
      have h3 : (lookupA (add_channel st n t d).feeds n).isSome = true := by
        rw [h2]; rfl
      conv_lhs => rw [add_channel]
      simp [h3]

/-- C9 witness: creating feed `a` then re-adding it with different metadata
changes nothing. -/
theorem c9_add_channel_first_write_wins_witness :
    add_channel (add_channel (emptyStorage 2) "a" "t" "d") "a" "x" "y"
      = add_channel (emptyStorage 2) "a" "t" "d" :=
  (c9_add_channel_first_write_wins (emptyStorage 2) "a" "t" "d" "x" "y").2.2

end SaneRss
